import Mathlib

/-!
# Player1: the simulated media player component (`src/src/App.js`)

The component owns five pieces of React state (`url`, `status`, `isPlaying`,
`isLoading`, `progress`) and four pieces of behaviour: the progress-interval
effect, `handleLoadAndPlay`, `togglePlayPause` and `handleProgressClick`.

Embedding choices.
* The React state is one record, `State`; every handler is a function on it.
  All `setX` calls made synchronously by one handler belong to one render
  batch, so a handler is one state update.
* `progress` is a JavaScript number, `JSNumber`: a finite value, one of the
  two infinities, or NaN.  Finite values are carried as rationals and every
  arithmetic result is rounded to binary64 (round to nearest, ties to even,
  gradual underflow, overflow to an infinity) by `binary64`.  The two zeros
  are identified: the component never divides by a computed zero, and the
  divisor `offsetWidth` is a length, so only `+0` occurs there.
* `handleLoadAndPlay` is asynchronous.  Its synchronous prefix (lines 47-57)
  is `handleLoadAndPlay`, which also reports whether the function is now
  suspended at the `await` of line 63; the continuation (lines 66-68) is
  `loadResolved`, the `catch` branch (lines 71-72) is `loadFailed`.
* The interval callback of lines 22-32 is `tickUpdate`.  The effect of lines
  19-44 depends on `[isPlaying, progress]`: its cleanup clears the interval
  on every change of either, and the body installs a new one only when
  `isPlaying && progress < 100`.  So an interval exists exactly when
  `timerActive` holds, and `timerFire` is one firing of it.
-/

namespace Player1

/-! ## JavaScript numbers -/

/-- Rounding of a rational to the nearest integer, ties to the even one. -/
def roundHalfEven (r : ℚ) : ℤ :=
  if r - ⌊r⌋ < 1 / 2 then ⌊r⌋
  else if 1 / 2 < r - ⌊r⌋ then ⌊r⌋ + 1
  else if ⌊r⌋ % 2 = 0 then ⌊r⌋ else ⌊r⌋ + 1

/-- Exponent of the binary64 unit in the last place at the magnitude of a
positive `q`: 53 significant bits, and `2 ^ (-1074)` in the subnormal range. -/
def ulpExp (q : ℚ) : ℤ :=
  max (Int.log 2 q - 52) (-1074)

/-- Rounding to the nearest multiple of `2 ^ e`, ties to even. -/
def roundAt (e : ℤ) (q : ℚ) : ℚ :=
  roundHalfEven (q / 2 ^ e) * 2 ^ e

/-- Rounding of a non-negative rational to the binary64 grid. -/
def roundPos (q : ℚ) : ℚ :=
  roundAt (ulpExp q) q

/-- Rounding of a rational to the binary64 grid, before the overflow test. -/
def roundQ (q : ℚ) : ℚ :=
  if q < 0 then -roundPos (-q) else roundPos q

/-- A JavaScript number. -/
inductive JSNumber where
  | finite (value : ℚ)
  | posInf
  | negInf
  | nan
  deriving DecidableEq

instance : Coe ℚ JSNumber := ⟨JSNumber.finite⟩

instance (n : ℕ) : OfNat JSNumber n := ⟨JSNumber.finite n⟩

/-- The binary64 result of an operation whose exact result is `q`. -/
def binary64 (q : ℚ) : JSNumber :=
  if 2 ^ 1024 ≤ roundQ q then JSNumber.posInf
  else if roundQ q ≤ -2 ^ 1024 then JSNumber.negInf
  else JSNumber.finite (roundQ q)

/-- The rational `q` is a binary64 value: rounding leaves it alone. -/
def isBinary64 (q : ℚ) : Prop :=
  binary64 q = JSNumber.finite q

instance (q : ℚ) : Decidable (isBinary64 q) := by
  unfold isBinary64
  infer_instance

/-- A number a JavaScript variable can hold: a finite one is a binary64 value. -/
def JSNumber.isValue : JSNumber → Prop
  | JSNumber.finite q => isBinary64 q
  | _ => True

/-- JavaScript `a + b`. -/
def JSNumber.add : JSNumber → JSNumber → JSNumber
  | .finite x, .finite y => binary64 (x + y)
  | .finite _, .posInf => .posInf
  | .finite _, .negInf => .negInf
  | .posInf, .finite _ => .posInf
  | .posInf, .posInf => .posInf
  | .negInf, .finite _ => .negInf
  | .negInf, .negInf => .negInf
  | .posInf, .negInf => .nan
  | .negInf, .posInf => .nan
  | .nan, _ => .nan
  | _, .nan => .nan

/-- The product of an infinity of sign `positive` with the finite `y`. -/
def JSNumber.infTimes (positive : Bool) (y : ℚ) : JSNumber :=
  if y = 0 then .nan
  else if decide (0 < y) = positive then .posInf else .negInf

/-- JavaScript `a * b`. -/
def JSNumber.mul : JSNumber → JSNumber → JSNumber
  | .finite x, .finite y => binary64 (x * y)
  | .finite x, .posInf => JSNumber.infTimes true x
  | .finite x, .negInf => JSNumber.infTimes false x
  | .posInf, .finite y => JSNumber.infTimes true y
  | .negInf, .finite y => JSNumber.infTimes false y
  | .posInf, .posInf => .posInf
  | .negInf, .negInf => .posInf
  | .posInf, .negInf => .negInf
  | .negInf, .posInf => .negInf
  | .nan, _ => .nan
  | _, .nan => .nan

/-- JavaScript `a / b`; a zero divisor is `+0`. -/
def JSNumber.div : JSNumber → JSNumber → JSNumber
  | .finite x, .finite y =>
    if y = 0 then
      if x = 0 then .nan else if 0 < x then .posInf else .negInf
    else binary64 (x / y)
  | .finite _, .posInf => .finite 0
  | .finite _, .negInf => .finite 0
  | .posInf, .finite y => if 0 ≤ y then .posInf else .negInf
  | .negInf, .finite y => if 0 ≤ y then .negInf else .posInf
  | .posInf, .posInf => .nan
  | .posInf, .negInf => .nan
  | .negInf, .posInf => .nan
  | .negInf, .negInf => .nan
  | .nan, _ => .nan
  | _, .nan => .nan

/-- JavaScript `a < b`. -/
def JSNumber.lt : JSNumber → JSNumber → Bool
  | .finite x, .finite y => decide (x < y)
  | .finite _, .posInf => true
  | .negInf, .finite _ => true
  | .negInf, .posInf => true
  | _, _ => false

/-- JavaScript `a >= b`. -/
def JSNumber.ge : JSNumber → JSNumber → Bool
  | .finite x, .finite y => decide (y ≤ x)
  | .finite _, .negInf => true
  | .posInf, .finite _ => true
  | .posInf, .posInf => true
  | .posInf, .negInf => true
  | .negInf, .negInf => true
  | _, _ => false

/-- JavaScript `a === b` on numbers. -/
def JSNumber.strictEq : JSNumber → JSNumber → Bool
  | .finite x, .finite y => decide (x = y)
  | .posInf, .posInf => true
  | .negInf, .negInf => true
  | _, _ => false

/-- JavaScript `Math.max(a, b)`. -/
def JSNumber.mathMax : JSNumber → JSNumber → JSNumber
  | .nan, _ => .nan
  | _, .nan => .nan
  | .posInf, _ => .posInf
  | _, .posInf => .posInf
  | .negInf, b => b
  | a, .negInf => a
  | .finite x, .finite y => .finite (max x y)

/-- JavaScript `Math.min(a, b)`. -/
def JSNumber.mathMin : JSNumber → JSNumber → JSNumber
  | .nan, _ => .nan
  | _, .nan => .nan
  | .negInf, _ => .negInf
  | _, .negInf => .negInf
  | .posInf, b => b
  | a, .posInf => a
  | .finite x, .finite y => .finite (min x y)

/-- The order `a ≤ b` on JavaScript numbers is JavaScript `b >= a`. -/
instance : LE JSNumber := ⟨fun a b => JSNumber.ge b a = true⟩

instance (a b : JSNumber) : Decidable (a ≤ b) := by
  show Decidable (JSNumber.ge b a = true)
  infer_instance

/-- The order `a < b` on JavaScript numbers is JavaScript `a < b`. -/
instance : LT JSNumber := ⟨fun a b => JSNumber.lt a b = true⟩

instance (a b : JSNumber) : Decidable (a < b) := by
  show Decidable (JSNumber.lt a b = true)
  infer_instance

/-! ## The component -/

/-- The React state of `App` (lines 6-14). -/
structure State where
  url : String
  status : String
  isPlaying : Bool
  isLoading : Bool
  progress : JSNumber
  deriving DecidableEq

/-- Initial status text, line 8. -/
def statusInitial : String := "Digite a URL do YouTube para carregar a mídia."
/-- Status text of line 27 and line 95. -/
def statusFinished : String := "✅ Reprodução finalizada!"
/-- Status text of line 50. -/
def statusInvalidUrl : String := "❌ URL inválida! Use http:// ou https://"
/-- Status text of line 57. -/
def statusLoading : String := "⏳ Carregando mídia... (Simulado)"
/-- Status text of lines 68, 80 and 92. -/
def statusPlaying : String := "▶️ Reproduzindo..."
/-- Status text of line 72. -/
def statusLoadError : String :=
  "❌ Ocorreu um erro ao carregar a mídia. (Erro de conexão simulado)"
/-- Status text of line 80. -/
def statusPaused : String := "⏸️ Pausado."

/-- The values passed to `useState` on lines 6-14. -/
def initialState : State :=
  { url := "", status := statusInitial, isPlaying := false, isLoading := false, progress := 0 }

/-- JavaScript `str.startsWith(pre)`, on the characters of the two strings. -/
def startsWith (str pre : String) : Bool :=
  pre.toList.isPrefixOf str.toList

/-- JavaScript truthiness of a string (`url` in `!url`, `&& url`): non-empty. -/
def truthy (str : String) : Bool :=
  !(str == "")

/-- The updater passed to `setProgress` by the interval callback, lines 23-31,
together with the `setIsPlaying(false)` and `setStatus` it issues. -/
def tickUpdate (s : State) : State :=
  if JSNumber.ge s.progress 100 then
    { s with progress := 100, isPlaying := false, status := statusFinished }
  else
    { s with progress := JSNumber.add s.progress 1 }

/-- Whether the effect of lines 19-44 has an interval installed: line 20. -/
def timerActive (s : State) : Bool :=
  s.isPlaying && JSNumber.lt s.progress 100

/-- One firing of the interval the effect installs; without an interval
nothing fires. -/
def timerFire (s : State) : State :=
  if timerActive s then tickUpdate s else s

/-- What the synchronous part of `handleLoadAndPlay` leaves behind. -/
structure LoadStart where
  state : State
  awaiting : Bool
  deriving DecidableEq

/-- Lines 47-57 of `handleLoadAndPlay`: the validation and, for an accepted
URL, the four updates made before the `await`. -/
def handleLoadAndPlay (s : State) : LoadStart :=
  if !startsWith s.url "http://" && !startsWith s.url "https://" then
    { state := { s with status := statusInvalidUrl }, awaiting := false }
  else
    { state := { s with isLoading := true, isPlaying := false, progress := 0,
                        status := statusLoading },
      awaiting := true }

/-- Lines 66-68: the continuation of `handleLoadAndPlay` once the 2000 ms
promise of line 63 resolves. -/
def loadResolved (s : State) : State :=
  { s with isLoading := false, isPlaying := true, status := statusPlaying }

/-- Lines 71-72: the `catch` branch of `handleLoadAndPlay`. -/
def loadFailed (s : State) : State :=
  { s with isLoading := false, status := statusLoadError }

/-- Lines 77-81. -/
def togglePlayPause (s : State) : State :=
  if !truthy s.url || s.isLoading then s
  else
    { s with isPlaying := !s.isPlaying,
             status := if s.isPlaying then statusPaused else statusPlaying }

/-- Lines 84-97.  `clickX` is `e.clientX - getBoundingClientRect().left`,
`offsetWidth` the rendered width of the bar. -/
def handleProgressClick (s : State) (clickX offsetWidth : JSNumber) : State :=
  if !truthy s.url || s.isLoading then s
  else
    let newProgress := JSNumber.mul (JSNumber.div clickX offsetWidth) 100
    let s1 := { s with progress := JSNumber.mathMin 100 (JSNumber.mathMax 0 newProgress) }
    if JSNumber.lt newProgress 100 && !s.isPlaying && truthy s.url then
      { s1 with isPlaying := true, status := statusPlaying }
    else if JSNumber.strictEq newProgress 100 then
      { s1 with isPlaying := false, status := statusFinished }
    else s1

/-- The events the component reacts to.  A click on the bar carries the
finite pointer offset and bar width the page reads at that moment. -/
inductive Event where
  | setUrl (value : String)
  | load
  | resolve
  | toggle
  | seek (clickX offsetWidth : ℚ)
  | tick
  deriving DecidableEq

/-- One event applied to the state.  An event the rendered page cannot
deliver leaves the state alone: the input and the load button are
`disabled={isLoading}` (lines 118, 130), the promise resolves only for a
load in flight, and the interval exists only under `timerActive`. -/
def step (s : State) : Event → State
  | .setUrl value => if s.isLoading then s else { s with url := value }
  | .load => if s.isLoading then s else (handleLoadAndPlay s).state
  | .resolve => if s.isLoading then loadResolved s else s
  | .toggle => togglePlayPause s
  | .seek clickX offsetWidth =>
    handleProgressClick s (JSNumber.finite clickX) (JSNumber.finite offsetWidth)
  | .tick => timerFire s

/-- A run of events from a state. -/
def run (s : State) (events : List Event) : State :=
  events.foldl step s

/-- Events the page can deliver: a seek happens on a bar of positive width. -/
def Event.wellFormed : Event → Prop
  | .seek _ offsetWidth => 0 < offsetWidth
  | _ => True

instance (e : Event) : Decidable e.wellFormed := by
  cases e <;> unfold Event.wellFormed <;> infer_instance

/-- States reachable from the initial state by well-formed events. -/
def Reachable (s : State) : Prop :=
  ∃ events : List Event, (∀ e ∈ events, e.wellFormed) ∧ run initialState events = s

/-- The timer fired `n` times in a row. -/
def fireTimes : ℕ → State → State
  | 0, s => s
  | n + 1, s => fireTimes n (timerFire s)

/-- The binary64 value of `(x / W) * 100` when neither rounding overflows. -/
def seekValue (x W : ℚ) : ℚ :=
  roundQ (roundQ (x / W) * 100)

/-! ## States and event lists used below -/

/-- A state in which an earlier load is playing part-way through and the
input has since been edited to a rejected URL. -/
def midPlaybackBadUrl : State :=
  { url := "ftp://bad", status := statusPlaying, isPlaying := true, isLoading := false,
    progress := 37 }

/-- The initial state with the URL of the specification's scenario typed in. -/
def scenarioTyped : State :=
  { initialState with url := "https://example.com/watch?v=1" }

/-- A paused state with a URL, part-way through. -/
def pausedMidway : State :=
  { url := "https://a", status := statusPaused, isPlaying := false, isLoading := false,
    progress := 12 }

/-- A playing state whose progress overshot the end of the bar. -/
def playingPastEnd : State :=
  { url := "https://a", status := statusPlaying, isPlaying := true, isLoading := false,
    progress := JSNumber.finite (201 / 2) }

/-- The state of the specification's scenario right after the load resolved. -/
def scenarioLoaded : State :=
  loadResolved (handleLoadAndPlay scenarioTyped).state

/-- Load a URL, let the load resolve, click the bar at 199 of 200 pixels,
then let the timer fire once. -/
def overshootEvents : List Event :=
  [Event.setUrl "https://a", Event.load, Event.resolve, Event.seek 199 200, Event.tick]

/-- The state after a load of `https://a` resolved. -/
def loadedA : State :=
  { url := "https://a", status := statusPlaying, isPlaying := true, isLoading := false,
    progress := 0 }

/-- The scenario of the specification: type the URL, load, let the load
resolve, let the timer fire 100 times. -/
def scenarioEvents : List Event :=
  [Event.setUrl "https://example.com/watch?v=1", Event.load, Event.resolve] ++
    List.replicate 100 Event.tick

/-- Load `https://a`, play for 37 firings, then edit the input to
`ftp://bad`. -/
def midPlaybackEvents : List Event :=
  [Event.setUrl "https://a", Event.load, Event.resolve] ++
    (List.replicate 37 Event.tick ++ [Event.setUrl "ftp://bad"])

/-- The initial state with a rejected URL typed in. -/
def badUrlTyped : State :=
  { initialState with url := "ftp://bad" }

/-- The flags `isLoading` and `isPlaying` are not both true. -/
def loadingExcludesPlaying (s : State) : Prop :=
  (s.isLoading && s.isPlaying) = false

/-- The state of the scenario while the load is in flight. -/
def scenarioLoading : State :=
  { url := "https://example.com/watch?v=1", status := statusLoading, isPlaying := false,
    isLoading := true, progress := 0 }

/-- What does hold of `progress` in every reachable state: it is a finite
number, never negative and at most 101. -/
def progressBounded (s : State) : Prop :=
  ∃ q : ℚ, s.progress = JSNumber.finite q ∧ 0 ≤ q ∧ q ≤ 101

/-- The binary64 number `28.999999999999996`, which is `29 - 2 ^ (-48)`. -/
def justBelow29 : ℚ := 8162774324609023 / 281474976710656

/-- The binary64 number `29.999999999999996`, which is `30 - 2 ^ (-48)`. -/
def justBelow30 : ℚ := 8444249301319679 / 281474976710656

/-- The binary64 number `30.999999999999996`, which is `31 - 2 ^ (-48)`. -/
def justBelow31 : ℚ := 8725724278030335 / 281474976710656

/-- The binary64 number `31.999999999999996`, which is `32 - 2 ^ (-48)`. -/
def justBelow32 : ℚ := 9007199254740991 / 281474976710656

/-- A playing state whose progress is `31.999999999999996`. -/
def playingJustBelow32 : State :=
  { url := "https://a", status := statusPlaying, isPlaying := true, isLoading := false,
    progress := JSNumber.finite justBelow32 }

/-- Load `https://a`, let the load resolve, click the bar at 29 of 100
pixels, then let the timer fire three times. -/
def justBelow32Events : List Event :=
  [Event.setUrl "https://a", Event.load, Event.resolve] ++
    [Event.seek 29 100, Event.tick, Event.tick, Event.tick]

/-! ## Rounding to binary64 -/

theorem roundHalfEven_spec (r : ℚ) :
    r - 1 / 2 ≤ roundHalfEven r ∧ (roundHalfEven r : ℚ) ≤ r + 1 / 2 := by
  have h1 := Int.floor_le r
  have h2 := Int.lt_floor_add_one r
  unfold roundHalfEven
  split_ifs <;> push_cast <;> constructor <;> linarith

theorem roundHalfEven_mono {r r' : ℚ} (h : r ≤ r') :
    roundHalfEven r ≤ roundHalfEven r' := by
  by_contra hc
  push_neg at hc
  have h1 := (roundHalfEven_spec r).2
  have h2 := (roundHalfEven_spec r').1
  have h3 : (roundHalfEven r' : ℚ) + 1 ≤ roundHalfEven r := by exact_mod_cast hc
  have h4 : r = r' := by linarith
  subst h4
  exact lt_irrefl _ hc

theorem roundHalfEven_intCast (n : ℤ) : roundHalfEven (n : ℚ) = n := by
  simp [roundHalfEven]

theorem roundHalfEven_eq_of_near (r : ℚ) (m : ℤ) (h1 : (m : ℚ) - 1 / 2 < r)
    (h2 : r < m + 1 / 2) : roundHalfEven r = m := by
  have hs := roundHalfEven_spec r
  have ha : (roundHalfEven r : ℚ) < m + 1 := by linarith [hs.2]
  have hb : (m : ℚ) - 1 < roundHalfEven r := by linarith [hs.1]
  have ha' : roundHalfEven r < m + 1 := by exact_mod_cast ha
  have hb' : m - 1 < roundHalfEven r := by exact_mod_cast hb
  omega

theorem roundHalfEven_tie_up (m : ℤ) (hm : m % 2 = 0) :
    roundHalfEven ((m : ℚ) - 1 / 2) = m := by
  have hf : ⌊(m : ℚ) - 1 / 2⌋ = m - 1 := by
    rw [Int.floor_eq_iff]
    push_cast
    constructor <;> linarith
  unfold roundHalfEven
  rw [hf]
  have h1 : ¬ ((m : ℚ) - 1 / 2 - ((m - 1 : ℤ) : ℚ) < 1 / 2) := by push_cast; linarith
  have h2 : ¬ ((1 : ℚ) / 2 < (m : ℚ) - 1 / 2 - ((m - 1 : ℤ) : ℚ)) := by push_cast; linarith
  have h3 : ¬ ((m - 1) % 2 = 0) := by omega
  rw [if_neg h1, if_neg h2, if_neg h3]
  ring

theorem two_zpow_pos (e : ℤ) : (0 : ℚ) < 2 ^ e := zpow_pos (by norm_num) e

theorem roundAt_mono (e : ℤ) {q r : ℚ} (h : q ≤ r) : roundAt e q ≤ roundAt e r := by
  unfold roundAt
  have h1 : q / 2 ^ e ≤ r / 2 ^ e := div_le_div_of_nonneg_right h (two_zpow_pos e).le
  have h2 : (roundHalfEven (q / 2 ^ e) : ℚ) ≤ roundHalfEven (r / 2 ^ e) := by
    exact_mod_cast roundHalfEven_mono h1
  exact mul_le_mul_of_nonneg_right h2 (two_zpow_pos e).le

theorem roundAt_grid (e : ℤ) (m : ℤ) : roundAt e ((m : ℚ) * 2 ^ e) = m * 2 ^ e := by
  unfold roundAt
  rw [mul_div_assoc, div_self (ne_of_gt (two_zpow_pos e)), mul_one, roundHalfEven_intCast]

theorem roundAt_le_grid (e : ℤ) (m : ℤ) {q : ℚ} (h : q ≤ m * 2 ^ e) :
    roundAt e q ≤ m * 2 ^ e := by
  rw [← roundAt_grid e m]
  exact roundAt_mono e h

theorem grid_le_roundAt (e : ℤ) (m : ℤ) {q : ℚ} (h : (m : ℚ) * 2 ^ e ≤ q) :
    (m : ℚ) * 2 ^ e ≤ roundAt e q := by
  rw [← roundAt_grid e m]
  exact roundAt_mono e h

theorem roundAt_error (e : ℤ) (q : ℚ) : |roundAt e q - q| ≤ 2 ^ e / 2 := by
  have hp := two_zpow_pos e
  have hs := roundHalfEven_spec (q / 2 ^ e)
  have hq : q = q / 2 ^ e * 2 ^ e := by field_simp
  unfold roundAt
  rw [abs_le]
  constructor
  · have := mul_le_mul_of_nonneg_right hs.1 hp.le
    nlinarith
  · have := mul_le_mul_of_nonneg_right hs.2 hp.le
    nlinarith

theorem log_eq_of_bounds {q : ℚ} {k : ℤ} (h1 : (2 : ℚ) ^ k ≤ q) (h2 : q < 2 ^ (k + 1)) :
    Int.log 2 q = k := by
  have hq : 0 < q := lt_of_lt_of_le (two_zpow_pos k) h1
  have a : k ≤ Int.log 2 q := by
    rw [← Int.zpow_le_iff_le_log (by norm_num) hq]
    exact_mod_cast h1
  have b : Int.log 2 q < k + 1 := by
    rw [← Int.lt_zpow_iff_log_lt (by norm_num) hq]
    exact_mod_cast h2
  omega

theorem zpow_log_le {q : ℚ} (hq : 0 < q) : (2 : ℚ) ^ Int.log 2 q ≤ q := by
  have := Int.zpow_log_le_self (b := 2) (by norm_num) hq
  exact_mod_cast this

theorem lt_zpow_log_succ (q : ℚ) : q < (2 : ℚ) ^ (Int.log 2 q + 1) := by
  have := Int.lt_zpow_succ_log_self (b := 2) (by norm_num) q
  exact_mod_cast this

theorem ulpExp_mono {q r : ℚ} (hq : 0 < q) (h : q ≤ r) : ulpExp q ≤ ulpExp r := by
  unfold ulpExp
  have := Int.log_mono_right (b := 2) hq h
  omega

theorem roundPos_nonneg {q : ℚ} (h : 0 ≤ q) : 0 ≤ roundPos q := by
  have := grid_le_roundAt (ulpExp q) 0 (q := q) (by simpa using h)
  simpa [roundPos] using this

theorem roundPos_zero : roundPos 0 = 0 := by
  have := roundAt_grid (ulpExp 0) 0
  simpa [roundPos] using this

theorem roundPos_mono {q r : ℚ} (hq : 0 ≤ q) (h : q ≤ r) : roundPos q ≤ roundPos r := by
  rcases eq_or_lt_of_le hq with h0 | hpos
  · rw [← h0, roundPos_zero]
    exact roundPos_nonneg (le_trans hq h)
  have hr : 0 < r := lt_of_lt_of_le hpos h
  have he := ulpExp_mono hpos h
  rcases eq_or_lt_of_le he with heq | hlt
  · unfold roundPos
    rw [heq]
    exact roundAt_mono _ h
  · -- the binade of `q` lies below the one of `r`
    have hkr : ulpExp r = Int.log 2 r - 52 := by
      unfold ulpExp at hlt ⊢
      omega
    have hkq : Int.log 2 q - 52 ≤ ulpExp q := le_max_left _ _
    have up : roundPos q ≤ ((2 ^ 53 : ℤ) : ℚ) * 2 ^ ulpExp q := by
      apply roundAt_le_grid
      have h1 := lt_zpow_log_succ q
      have h2 : (2 : ℚ) ^ (Int.log 2 q + 1) ≤ 2 ^ (ulpExp q + 53) :=
        zpow_le_zpow_right₀ (by norm_num) (by omega)
      have h3 : (2 : ℚ) ^ (ulpExp q + 53) = 2 ^ ulpExp q * 2 ^ (53 : ℤ) :=
        zpow_add₀ (by norm_num) _ _
      have h4 : (((2 ^ 53 : ℤ) : ℚ)) = (2 : ℚ) ^ (53 : ℤ) := by norm_num
      rw [h4, mul_comm, ← h3]
      exact le_of_lt (lt_of_lt_of_le h1 h2)
    have low : ((2 ^ 52 : ℤ) : ℚ) * 2 ^ ulpExp r ≤ roundPos r := by
      apply grid_le_roundAt
      have h3 : (2 : ℚ) ^ (ulpExp r + 52) = 2 ^ ulpExp r * 2 ^ (52 : ℤ) :=
        zpow_add₀ (by norm_num) _ _
      have h4 : (((2 ^ 52 : ℤ) : ℚ)) = (2 : ℚ) ^ (52 : ℤ) := by norm_num
      rw [h4, mul_comm, ← h3, hkr]
      have : Int.log 2 r - 52 + 52 = Int.log 2 r := by ring
      rw [this]
      exact zpow_log_le hr
    have mid : ((2 ^ 53 : ℤ) : ℚ) * 2 ^ ulpExp q ≤ ((2 ^ 52 : ℤ) : ℚ) * 2 ^ ulpExp r := by
      have h3 : (2 : ℚ) ^ (ulpExp q + 53) = 2 ^ ulpExp q * 2 ^ (53 : ℤ) :=
        zpow_add₀ (by norm_num) _ _
      have h5 : (2 : ℚ) ^ (ulpExp r + 52) = 2 ^ ulpExp r * 2 ^ (52 : ℤ) :=
        zpow_add₀ (by norm_num) _ _
      have h4 : (((2 ^ 53 : ℤ) : ℚ)) = (2 : ℚ) ^ (53 : ℤ) := by norm_num
      have h6 : (((2 ^ 52 : ℤ) : ℚ)) = (2 : ℚ) ^ (52 : ℤ) := by norm_num
      rw [h4, h6, mul_comm, ← h3, mul_comm, ← h5]
      exact zpow_le_zpow_right₀ (by norm_num) (by omega)
    exact le_trans up (le_trans mid low)

theorem roundQ_mono {q r : ℚ} (h : q ≤ r) : roundQ q ≤ roundQ r := by
  unfold roundQ
  split_ifs with h1 h2 h2
  · exact neg_le_neg (roundPos_mono (by linarith) (by linarith))
  · have a := roundPos_nonneg (q := -q) (by linarith)
    have b := roundPos_nonneg (q := r) (by linarith)
    linarith
  · linarith
  · exact roundPos_mono (by linarith) h

theorem roundQ_zero : roundQ 0 = 0 := by
  simp [roundQ, roundPos_zero]

theorem roundQ_nonneg {q : ℚ} (h : 0 ≤ q) : 0 ≤ roundQ q := by
  have := roundQ_mono h
  rwa [roundQ_zero] at this

theorem ulpExp_natCast (n : ℕ) : ulpExp (n : ℚ) = (Nat.log 2 n : ℤ) - 52 := by
  unfold ulpExp
  rw [Int.log_natCast]
  omega

theorem roundQ_natCast (n : ℕ) (h : n < 2 ^ 53) : roundQ (n : ℚ) = n := by
  have hn : ¬ ((n : ℚ) < 0) := not_lt.mpr (Nat.cast_nonneg n)
  rw [roundQ, if_neg hn]
  rcases Nat.eq_zero_or_pos n with h0 | hpos
  · subst h0
    simpa using roundPos_zero
  have hL : Nat.log 2 n < 53 := Nat.log_lt_of_lt_pow (by omega) h
  obtain ⟨j, hj⟩ : ∃ j : ℕ, (j : ℤ) = 52 - (Nat.log 2 n : ℤ) := ⟨52 - Nat.log 2 n, by omega⟩
  have he : ulpExp (n : ℚ) = -(j : ℤ) := by rw [ulpExp_natCast, hj]; ring
  have hg : (n : ℚ) = ((n * 2 ^ j : ℕ) : ℤ) * 2 ^ ulpExp (n : ℚ) := by
    rw [he, zpow_neg, zpow_natCast]
    push_cast
    field_simp
  unfold roundPos
  generalize ulpExp (n : ℚ) = e at hg
  rw [hg]
  exact roundAt_grid _ _

theorem ulpExp_of_bounds {q : ℚ} {k : ℤ} (hk : -1022 ≤ k) (h1 : (2 : ℚ) ^ k ≤ q)
    (h2 : q < 2 ^ (k + 1)) : ulpExp q = k - 52 := by
  unfold ulpExp
  rw [log_eq_of_bounds h1 h2]
  omega

/-- Evaluation certificate: a positive normal `q` in the binade of `2 ^ k`
whose scaled value is strictly nearer to `m` than to any other integer. -/
theorem roundQ_eq_of_near {q : ℚ} (k m : ℤ) (hk : -1022 ≤ k) (h1 : (2 : ℚ) ^ k ≤ q)
    (h2 : q < 2 ^ (k + 1)) (h3 : (m : ℚ) - 1 / 2 < q / 2 ^ (k - 52))
    (h4 : q / 2 ^ (k - 52) < m + 1 / 2) : roundQ q = m * 2 ^ (k - 52) := by
  have hq : 0 < q := lt_of_lt_of_le (two_zpow_pos k) h1
  rw [roundQ, if_neg (not_lt.mpr hq.le), roundPos, ulpExp_of_bounds hk h1 h2, roundAt,
    roundHalfEven_eq_of_near _ m h3 h4]

/-- Evaluation certificate for a tie: the scaled value is `m - 1/2` with `m`
even. -/
theorem roundQ_eq_of_tie_up {q : ℚ} (k m : ℤ) (hk : -1022 ≤ k) (h1 : (2 : ℚ) ^ k ≤ q)
    (h2 : q < 2 ^ (k + 1)) (h3 : q / 2 ^ (k - 52) = (m : ℚ) - 1 / 2) (hm : m % 2 = 0) :
    roundQ q = m * 2 ^ (k - 52) := by
  have hq : 0 < q := lt_of_lt_of_le (two_zpow_pos k) h1
  rw [roundQ, if_neg (not_lt.mpr hq.le), roundPos, ulpExp_of_bounds hk h1 h2, roundAt, h3,
    roundHalfEven_tie_up m hm]

theorem roundQ_error_of_lt {q : ℚ} (j : ℤ) (hj : -1022 ≤ j) (h0 : 0 ≤ q)
    (h : q < 2 ^ (j + 1)) : |roundQ q - q| ≤ 2 ^ (j - 53) := by
  rcases eq_or_lt_of_le h0 with hz | hpos
  · rw [← hz, roundQ_zero]
    simpa using (two_zpow_pos (j - 53)).le
  have hlog : Int.log 2 q < j + 1 := by
    rw [← Int.lt_zpow_iff_log_lt (by norm_num) hpos]
    exact_mod_cast h
  have he : ulpExp q ≤ j - 52 := by
    unfold ulpExp
    omega
  rw [roundQ, if_neg (not_lt.mpr h0), roundPos]
  refine le_trans (roundAt_error _ _) ?_
  have h1 : (2 : ℚ) ^ ulpExp q ≤ 2 ^ (j - 52) := zpow_le_zpow_right₀ (by norm_num) he
  have h2 : (2 : ℚ) ^ (j - 52) = 2 ^ (j - 53) * 2 := by
    have : j - 52 = j - 53 + 1 := by ring
    rw [this, zpow_add₀ (by norm_num), zpow_one]
  linarith


theorem roundQ_le_natCast {q : ℚ} (n : ℕ) (hn : n < 2 ^ 53) (h : q ≤ n) : roundQ q ≤ n := by
  have := roundQ_mono h
  rwa [roundQ_natCast n hn] at this

theorem natCast_le_roundQ {q : ℚ} (n : ℕ) (hn : n < 2 ^ 53) (h : (n : ℚ) ≤ q) :
    (n : ℚ) ≤ roundQ q := by
  have := roundQ_mono h
  rwa [roundQ_natCast n hn] at this

theorem binary64_of_roundQ {q r : ℚ} (h : roundQ q = r) (h1 : -2 ^ 1024 < r)
    (h2 : r < 2 ^ 1024) : binary64 q = JSNumber.finite r := by
  unfold binary64
  rw [h, if_neg (not_le.mpr h2), if_neg (not_le.mpr h1)]

theorem binary64_of_bounds {q : ℚ} (h1 : -2 ^ 1024 < roundQ q) (h2 : roundQ q < 2 ^ 1024) :
    binary64 q = JSNumber.finite (roundQ q) :=
  binary64_of_roundQ rfl h1 h2

theorem binary64_natCast (n : ℕ) (hn : n < 2 ^ 53) : binary64 (n : ℚ) = JSNumber.finite n := by
  have h0 : (0 : ℚ) ≤ n := Nat.cast_nonneg n
  have h1 : (n : ℚ) < 2 ^ 53 := by exact_mod_cast hn
  apply binary64_of_roundQ (roundQ_natCast n hn)
  · have : (0 : ℚ) < 2 ^ 1024 := by positivity
    linarith
  · have : (2 : ℚ) ^ 53 ≤ 2 ^ 1024 := pow_le_pow_right₀ (by norm_num) (by norm_num)
    linarith

theorem isBinary64_natCast (n : ℕ) (hn : n < 2 ^ 53) : isBinary64 (n : ℚ) :=
  binary64_natCast n hn

theorem isBinary64_roundQ {q : ℚ} (h : isBinary64 q) : roundQ q = q := by
  unfold isBinary64 binary64 at h
  split_ifs at h
  exact JSNumber.finite.inj h

theorem isBinary64_bounds {q : ℚ} (h : isBinary64 q) : -2 ^ 1024 < q ∧ q < 2 ^ 1024 := by
  have hr := isBinary64_roundQ h
  unfold isBinary64 binary64 at h
  rw [hr] at h
  split_ifs at h with h1 h2
  exact ⟨not_le.mp h2, not_le.mp h1⟩

theorem zero_eq : (0 : JSNumber) = JSNumber.finite 0 := by
  show JSNumber.finite ((0 : ℕ) : ℚ) = JSNumber.finite 0
  norm_num

theorem one_eq : (1 : JSNumber) = JSNumber.finite 1 := by
  show JSNumber.finite ((1 : ℕ) : ℚ) = JSNumber.finite 1
  norm_num

theorem hundred_eq : (100 : JSNumber) = JSNumber.finite 100 := by
  show JSNumber.finite ((100 : ℕ) : ℚ) = JSNumber.finite 100
  norm_num

/-! ## Field-wise facts about the handlers -/

theorem truthy_iff (str : String) : truthy str = true ↔ str ≠ "" := by
  simp [truthy]

theorem truthy_false_iff (str : String) : truthy str = false ↔ str = "" := by
  simp [truthy]

/-- C1. Loading a URL that starts with neither `http://` nor `https://` does
not suspend at the `await` (the loading phase is never entered), keeps `url`,
`isPlaying`, `isLoading` and `progress` as they were and sets the status to
the invalid-URL message. -/
theorem handleLoadAndPlay_invalid (s : State)
    (h1 : startsWith s.url "http://" = false)
    (h2 : startsWith s.url "https://" = false) :
    (handleLoadAndPlay s).awaiting = false ∧
    (handleLoadAndPlay s).state.isLoading = s.isLoading ∧
    (handleLoadAndPlay s).state.isPlaying = s.isPlaying ∧
    (handleLoadAndPlay s).state.progress = s.progress ∧
    (handleLoadAndPlay s).state.url = s.url ∧
    (handleLoadAndPlay s).state.status = "❌ URL inválida! Use http:// ou https://" := by
  simp [handleLoadAndPlay, h1, h2, statusInvalidUrl]

theorem handleLoadAndPlay_invalid_witness :
    startsWith midPlaybackBadUrl.url "http://" = false ∧
    startsWith midPlaybackBadUrl.url "https://" = false ∧
    (handleLoadAndPlay midPlaybackBadUrl).awaiting = false ∧
    (handleLoadAndPlay midPlaybackBadUrl).state.isLoading = midPlaybackBadUrl.isLoading ∧
    (handleLoadAndPlay midPlaybackBadUrl).state.isPlaying = midPlaybackBadUrl.isPlaying ∧
    (handleLoadAndPlay midPlaybackBadUrl).state.progress = midPlaybackBadUrl.progress ∧
    (handleLoadAndPlay midPlaybackBadUrl).state.url = midPlaybackBadUrl.url ∧
    (handleLoadAndPlay midPlaybackBadUrl).state.status =
      "❌ URL inválida! Use http:// ou https://" :=
  ⟨by decide, by decide, handleLoadAndPlay_invalid midPlaybackBadUrl (by decide) (by decide)⟩

theorem togglePlayPause_loading (s : State) (h : s.isLoading = true) :
    togglePlayPause s = s := by
  simp [togglePlayPause, h]

theorem handleProgressClick_loading (s : State) (h : s.isLoading = true)
    (x w : JSNumber) :
    handleProgressClick s x w = s := by
  simp [handleProgressClick, h]

theorem timerFire_not_playing (s : State) (h : s.isPlaying = false) :
    timerFire s = s := by
  simp [timerFire, timerActive, h]

/-- C2. For a URL that starts with `http://` or `https://`, the synchronous
part of `handleLoadAndPlay` suspends at the `await` with `isLoading = true`,
`isPlaying = false`, `progress = 0` and the loading status; in that state
every event other than the resolution of the delay (tick, toggle, seek, URL
edit, a second load) leaves the state as it is; and the resolution gives
`isLoading = false`, `isPlaying = true`, the playing status, `progress = 0`
and the same `url`. -/
theorem handleLoadAndPlay_valid (s : State)
    (h : startsWith s.url "http://" = true ∨ startsWith s.url "https://" = true) :
    (handleLoadAndPlay s).awaiting = true ∧
    (handleLoadAndPlay s).state.isLoading = true ∧
    (handleLoadAndPlay s).state.isPlaying = false ∧
    (handleLoadAndPlay s).state.progress = 0 ∧
    (handleLoadAndPlay s).state.status = "⏳ Carregando mídia... (Simulado)" ∧
    (handleLoadAndPlay s).state.url = s.url ∧
    (∀ e : Event, e ≠ Event.resolve →
      step (handleLoadAndPlay s).state e = (handleLoadAndPlay s).state) ∧
    step (handleLoadAndPlay s).state Event.resolve = loadResolved (handleLoadAndPlay s).state ∧
    (loadResolved (handleLoadAndPlay s).state).isLoading = false ∧
    (loadResolved (handleLoadAndPlay s).state).isPlaying = true ∧
    (loadResolved (handleLoadAndPlay s).state).status = "▶️ Reproduzindo..." ∧
    (loadResolved (handleLoadAndPlay s).state).progress = 0 ∧
    (loadResolved (handleLoadAndPlay s).state).url = s.url := by
  have hs : handleLoadAndPlay s =
      { state := { s with isLoading := true, isPlaying := false, progress := 0,
                          status := statusLoading },
        awaiting := true } := by
    rcases h with h | h <;> simp [handleLoadAndPlay, h]
  rw [hs]
  refine ⟨rfl, rfl, rfl, rfl, rfl, rfl, ?_, rfl, rfl, rfl, rfl, rfl, rfl⟩
  intro e he
  cases e with
  | setUrl value => simp [step]
  | load => simp [step]
  | resolve => exact absurd rfl he
  | toggle => exact togglePlayPause_loading _ rfl
  | seek x w => exact handleProgressClick_loading _ rfl _ _
  | tick => exact timerFire_not_playing _ rfl

theorem handleLoadAndPlay_valid_witness :
    (startsWith scenarioTyped.url "http://" = true ∨
      startsWith scenarioTyped.url "https://" = true) ∧
    (handleLoadAndPlay scenarioTyped).state.isLoading = true ∧
    (loadResolved (handleLoadAndPlay scenarioTyped).state).isPlaying = true ∧
    (loadResolved (handleLoadAndPlay scenarioTyped).state).progress = 0 :=
  have h := handleLoadAndPlay_valid scenarioTyped (Or.inr (by decide))
  ⟨Or.inr (by decide), h.2.1, h.2.2.2.2.2.2.2.2.2.1, h.2.2.2.2.2.2.2.2.2.2.2.1⟩

/-- C6. `togglePlayPause` changes nothing when `url` is empty or `isLoading`
is true; otherwise it negates `isPlaying`, sets the status to the paused text
when it was playing and to the playing text when it was not, and keeps `url`,
`isLoading` and `progress`.  Two consecutive toggles restore `isPlaying`. -/
theorem togglePlayPause_guarded_flip (s : State) :
    ((s.url = "" ∨ s.isLoading = true) → togglePlayPause s = s) ∧
    (s.url ≠ "" → s.isLoading = false →
      (togglePlayPause s).isPlaying = !s.isPlaying ∧
      (togglePlayPause s).status =
        (if s.isPlaying then "⏸️ Pausado." else "▶️ Reproduzindo...") ∧
      (togglePlayPause s).url = s.url ∧
      (togglePlayPause s).isLoading = s.isLoading ∧
      (togglePlayPause s).progress = s.progress) ∧
    (togglePlayPause (togglePlayPause s)).isPlaying = s.isPlaying := by
  refine ⟨?_, ?_, ?_⟩
  · rintro (h | h)
    · simp [togglePlayPause, truthy, h]
    · exact togglePlayPause_loading s h
  · intro hu hl
    simp [togglePlayPause, truthy, hu, hl, statusPaused, statusPlaying]
  · by_cases hu : s.url = ""
    · simp [togglePlayPause, truthy, hu]
    · cases hl : s.isLoading
      · simp [togglePlayPause, truthy, hu, hl]
      · simp [togglePlayPause, truthy, hl]

theorem togglePlayPause_guarded_flip_witness :
    (initialState.url = "" ∨ initialState.isLoading = true) ∧
    togglePlayPause initialState = initialState ∧
    pausedMidway.url ≠ "" ∧ pausedMidway.isLoading = false ∧
    (togglePlayPause pausedMidway).isPlaying = true ∧
    (togglePlayPause pausedMidway).status = "▶️ Reproduzindo..." ∧
    (togglePlayPause (togglePlayPause pausedMidway)).isPlaying = false :=
  have h := (togglePlayPause_guarded_flip pausedMidway).2.1 (by decide) rfl
  ⟨Or.inl rfl, (togglePlayPause_guarded_flip initialState).1 (Or.inl rfl),
    by decide, rfl, h.1, h.2.1, (togglePlayPause_guarded_flip pausedMidway).2.2⟩

/-! ## Runs of events -/

theorem run_nil (s : State) : run s [] = s := rfl

theorem run_cons (s : State) (e : Event) (es : List Event) :
    run s (e :: es) = run (step s e) es := rfl

theorem run_append (s : State) (es fs : List Event) :
    run s (es ++ fs) = run (run s es) fs := by
  simp [run, List.foldl_append]

theorem run_replicate_tick (n : ℕ) (s : State) :
    run s (List.replicate n Event.tick) = fireTimes n s := by
  induction n generalizing s with
  | zero => rfl
  | succ n ih =>
    rw [List.replicate_succ, run_cons, ih]
    rfl

theorem lt_finite_hundred (q : ℚ) :
    JSNumber.lt (JSNumber.finite q) 100 = decide (q < 100) := by
  rw [hundred_eq]
  rfl

theorem ge_finite_hundred (q : ℚ) :
    JSNumber.ge (JSNumber.finite q) 100 = decide (100 ≤ q) := by
  rw [hundred_eq]
  rfl

theorem add_finite_one (q : ℚ) : JSNumber.add (JSNumber.finite q) 1 = binary64 (q + 1) := by
  rw [one_eq]
  rfl

/-- One firing on a playing state with a finite progress below 100. -/
theorem timerFire_playing (s : State) (q : ℚ) (hp : s.isPlaying = true)
    (hq : s.progress = JSNumber.finite q) (h : q < 100) :
    timerFire s = { s with progress := binary64 (q + 1) } := by
  have hta : timerActive s = true := by
    simp [timerActive, hp, hq, lt_finite_hundred, h]
  have hge : ¬ (JSNumber.ge s.progress 100 = true) := by
    simp [hq, ge_finite_hundred, h]
  rw [timerFire, if_pos hta, tickUpdate, if_neg hge, hq, add_finite_one]

/-- While playing below the end, `n` firings add `n` to an integral progress,
as long as that does not pass 100: every sum is a binary64 value. -/
theorem fireTimes_playing (n k : ℕ) (s : State) (hp : s.isPlaying = true)
    (hk : s.progress = JSNumber.finite k) (h : k + n ≤ 100) :
    fireTimes n s = { s with progress := JSNumber.finite ((k + n : ℕ) : ℚ) } := by
  induction n generalizing k s with
  | zero =>
    cases s
    simp_all [fireTimes]
  | succ n ih =>
    have hlt : (k : ℚ) < 100 := by
      have : k < 100 := by omega
      exact_mod_cast this
    have hfire : timerFire s = { s with progress := JSNumber.finite ((k + 1 : ℕ) : ℚ) } := by
      rw [timerFire_playing s k hp hk hlt]
      have hb : binary64 ((k : ℚ) + 1) = JSNumber.finite ((k + 1 : ℕ) : ℚ) := by
        have := binary64_natCast (k + 1) (by omega)
        push_cast at this ⊢
        exact this
      rw [hb]
    have := ih (k + 1) (timerFire s) (by rw [hfire]; exact hp) (by rw [hfire]) (by omega)
    rw [fireTimes, this, hfire]
    have he : k + 1 + n = k + (n + 1) := by ring
    simp only [he]

/-- Once `progress` is finite and at or past 100 the effect installs no
interval, so nothing fires any more. -/
theorem fireTimes_at_end (n : ℕ) (s : State) (q : ℚ) (hq : s.progress = JSNumber.finite q)
    (h : 100 ≤ q) : fireTimes n s = s := by
  have hf : timerFire s = s := by
    have h' : ¬ (q < 100) := not_lt.mpr h
    simp [timerFire, timerActive, hq, lt_finite_hundred, h']
  induction n with
  | zero => rfl
  | succ n ih => rw [fireTimes, hf, ih]

theorem scenarioLoaded_eq :
    scenarioLoaded =
      { url := "https://example.com/watch?v=1", status := statusPlaying, isPlaying := true,
        isLoading := false, progress := 0 } := by
  have h : handleLoadAndPlay scenarioTyped =
      { state := { scenarioTyped with isLoading := true, isPlaying := false, progress := 0,
                                      status := statusLoading },
        awaiting := true } := by
    have : startsWith scenarioTyped.url "https://" = true := by decide
    simp [handleLoadAndPlay, this]
  rw [scenarioLoaded, h]
  rfl

theorem fireTimes_scenarioLoaded :
    fireTimes 100 scenarioLoaded = { scenarioLoaded with progress := 100 } := by
  have h0 : scenarioLoaded.progress = JSNumber.finite ((0 : ℕ) : ℚ) := by
    rw [scenarioLoaded_eq]
    rfl
  rw [fireTimes_playing 100 0 scenarioLoaded (by rw [scenarioLoaded_eq]) h0 (by norm_num)]
  rfl

/-- C3. Evaluation of the scenario: from the state right after the load of
`https://example.com/watch?v=1` resolved (`isPlaying = true`, `progress = 0`,
playing status), 100 firings of the timer leave `progress = 100` with
`isPlaying` still true and the status still the playing text; in that state
the effect installs no timer, so however often the timer is asked to fire
the state stays there and the completion branch never runs. -/
theorem scenario_hundred_ticks_still_playing :
    scenarioLoaded.isPlaying = true ∧ scenarioLoaded.progress = 0 ∧
    scenarioLoaded.status = "▶️ Reproduzindo..." ∧
    (fireTimes 100 scenarioLoaded).progress = 100 ∧
    (fireTimes 100 scenarioLoaded).isPlaying = true ∧
    (fireTimes 100 scenarioLoaded).status = "▶️ Reproduzindo..." ∧
    (fireTimes 100 scenarioLoaded).status ≠ "✅ Reprodução finalizada!" ∧
    timerActive (fireTimes 100 scenarioLoaded) = false ∧
    ∀ n : ℕ, fireTimes n (fireTimes 100 scenarioLoaded) = fireTimes 100 scenarioLoaded := by
  rw [fireTimes_scenarioLoaded, scenarioLoaded_eq]
  refine ⟨rfl, rfl, rfl, rfl, rfl, rfl, by decide, ?_, ?_⟩
  · simp [timerActive, hundred_eq, JSNumber.lt]
  · intro n
    exact fireTimes_at_end n _ 100 hundred_eq (le_refl _)

/-! ## Seeking -/

theorem roundQ_le_one {q : ℚ} (h : q ≤ 1) : roundQ q ≤ 1 := by
  have := roundQ_le_natCast (q := q) 1 (by norm_num) (by simpa using h)
  simpa using this

theorem roundQ_le_hundred {q : ℚ} (h : q ≤ 100) : roundQ q ≤ 100 := by
  have := roundQ_le_natCast (q := q) 100 (by norm_num) (by simpa using h)
  simpa using this

theorem seekValue_bounds (x W : ℚ) (hW : 0 < W) (hx0 : 0 ≤ x) (hxW : x ≤ W) :
    0 ≤ roundQ (x / W) ∧ roundQ (x / W) ≤ 1 ∧ 0 ≤ seekValue x W ∧ seekValue x W ≤ 100 := by
  have h0 : 0 ≤ x / W := div_nonneg hx0 hW.le
  have h1 : x / W ≤ 1 := (div_le_one hW).mpr hxW
  have a := roundQ_nonneg h0
  have b := roundQ_le_one h1
  refine ⟨a, b, ?_, ?_⟩
  · exact roundQ_nonneg (by positivity)
  · exact roundQ_le_hundred (by linarith)

/-- For a pointer inside a bar of positive width neither rounding of
`(clickX / offsetWidth) * 100` overflows. -/
theorem newProgress_inside (x W : ℚ) (hW : 0 < W) (hx0 : 0 ≤ x) (hxW : x ≤ W) :
    JSNumber.mul (JSNumber.div (JSNumber.finite x) (JSNumber.finite W)) 100 =
      JSNumber.finite (seekValue x W) := by
  obtain ⟨a, b, c, d⟩ := seekValue_bounds x W hW hx0 hxW
  have hbig : (100 : ℚ) < 2 ^ 1024 := by norm_num
  have hdiv : JSNumber.div (JSNumber.finite x) (JSNumber.finite W) =
      JSNumber.finite (roundQ (x / W)) := by
    have hne : W ≠ 0 := ne_of_gt hW
    simp only [JSNumber.div, hne, if_false]
    exact binary64_of_bounds (by linarith) (by linarith)
  rw [hdiv, hundred_eq]
  show binary64 (roundQ (x / W) * 100) = _
  exact binary64_of_bounds (by unfold seekValue at c; linarith) (by unfold seekValue at d; linarith)

/-- The seek handler on a pointer inside a bar of positive width, in terms of
the stored value. -/
theorem handleProgressClick_inside (s : State) (x W : ℚ) (hu : s.url ≠ "")
    (hl : s.isLoading = false) (hW : 0 < W) (hx0 : 0 ≤ x) (hxW : x ≤ W) :
    handleProgressClick s (JSNumber.finite x) (JSNumber.finite W) =
      if seekValue x W < 100 ∧ s.isPlaying = false then
        { s with progress := JSNumber.finite (seekValue x W), isPlaying := true,
                 status := statusPlaying }
      else if seekValue x W = 100 then
        { s with progress := JSNumber.finite (seekValue x W), isPlaying := false,
                 status := statusFinished }
      else { s with progress := JSNumber.finite (seekValue x W) } := by
  obtain ⟨_, _, c, d⟩ := seekValue_bounds x W hW hx0 hxW
  have hq : (s.url == "") = false := by simpa using hu
  have hclamp : JSNumber.mathMin 100 (JSNumber.mathMax 0 (JSNumber.finite (seekValue x W))) =
      JSNumber.finite (seekValue x W) := by
    rw [hundred_eq, zero_eq]
    show JSNumber.finite (min 100 (max 0 (seekValue x W))) = _
    rw [max_eq_right c, min_eq_right d]
  have hlt : JSNumber.lt (JSNumber.finite (seekValue x W)) 100 =
      decide (seekValue x W < 100) := lt_finite_hundred _
  have heq : JSNumber.strictEq (JSNumber.finite (seekValue x W)) 100 =
      decide (seekValue x W = 100) := by
    rw [hundred_eq]
    rfl
  simp only [handleProgressClick, truthy, hl, hq, newProgress_inside x W hW hx0 hxW, hclamp,
    hlt, heq, Bool.not_false, Bool.not_true, Bool.or_false, Bool.false_eq_true, if_false,
    Bool.and_true]
  by_cases h1 : seekValue x W < 100 <;> cases hp : s.isPlaying <;>
    by_cases h2 : seekValue x W = 100 <;> simp [h1, h2]

theorem seekValue_error (x W : ℚ) (hW : 0 < W) (hx0 : 0 ≤ x) (hxW : x ≤ W) :
    |seekValue x W - 100 * x / W| < 1 / 2 ^ 45 := by
  obtain ⟨a, b, _, _⟩ := seekValue_bounds x W hW hx0 hxW
  have h0 : 0 ≤ x / W := div_nonneg hx0 hW.le
  have h1 : x / W ≤ 1 := (div_le_one hW).mpr hxW
  have e1 := roundQ_error_of_lt (q := x / W) 0 (by norm_num) h0 (by norm_num; linarith)
  have e2 := roundQ_error_of_lt (q := roundQ (x / W) * 100) 6 (by norm_num) (by positivity)
    (by norm_num; linarith)
  have t1 : (2 : ℚ) ^ ((0 : ℤ) - 53) = 1 / 2 ^ 53 := by
    rw [show ((0 : ℤ) - 53) = -((53 : ℕ) : ℤ) by norm_num, zpow_neg, zpow_natCast]
    norm_num
  have t2 : (2 : ℚ) ^ ((6 : ℤ) - 53) = 1 / 2 ^ 47 := by
    rw [show ((6 : ℤ) - 53) = -((47 : ℕ) : ℤ) by norm_num, zpow_neg, zpow_natCast]
    norm_num
  rw [t1] at e1
  rw [t2] at e2
  rw [abs_le] at e1 e2
  have hx : 100 * x / W = x / W * 100 := by ring
  unfold seekValue
  rw [hx, abs_lt]
  constructor
  · norm_num at e1 e2 ⊢
    linarith [e1.1, e2.1]
  · norm_num at e1 e2 ⊢
    linarith [e1.2, e2.2]

theorem roundQ_one_sub_ulp : roundQ (1 - 1 / 2 ^ 53) = 1 - 1 / 2 ^ 53 := by
  rw [roundQ_eq_of_near (-1) (2 ^ 53 - 1)] <;> norm_num

theorem roundQ_below_hundred :
    roundQ ((1 - 1 / 2 ^ 53) * 100) = 100 - 1 / 2 ^ 46 := by
  rw [roundQ_eq_of_near 6 (100 * 2 ^ 46 - 1)] <;> norm_num

theorem seekValue_lt_hundred (x W : ℚ) (hW : 0 < W) (h : x ≤ W * (1 - 1 / 2 ^ 53)) :
    seekValue x W < 100 := by
  have h1 : x / W ≤ 1 - 1 / 2 ^ 53 := by
    rw [div_le_iff₀ hW]
    linarith
  have h2 := roundQ_mono h1
  rw [roundQ_one_sub_ulp] at h2
  have h3 : roundQ (x / W) * 100 ≤ (1 - 1 / 2 ^ 53) * 100 := by linarith
  have h4 := roundQ_mono h3
  rw [roundQ_below_hundred] at h4
  unfold seekValue
  have : (0 : ℚ) < 1 / 2 ^ 46 := by positivity
  linarith

theorem seekValue_full (W : ℚ) (hW : 0 < W) : seekValue W W = 100 := by
  have h1 : roundQ 1 = 1 := by simpa using roundQ_natCast 1 (by norm_num)
  have h100 : roundQ 100 = 100 := by simpa using roundQ_natCast 100 (by norm_num)
  rw [seekValue, div_self (ne_of_gt hW), h1, one_mul, h100]

theorem roundQ_half : roundQ (1 / 2) = 1 / 2 := by
  rw [roundQ_eq_of_near (-1) (2 ^ 52)] <;> norm_num

theorem seekValue_half (W : ℚ) (hW : 0 < W) : seekValue (W / 2) W = 50 := by
  have h50 : roundQ 50 = 50 := by simpa using roundQ_natCast 50 (by norm_num)
  have hd : W / 2 / W = 1 / 2 := by
    field_simp
    ring
  rw [seekValue, hd, roundQ_half]
  norm_num
  exact h50

theorem seekValue_29_100 : seekValue 29 100 = justBelow29 := by
  have h1 : roundQ (29 / 100) = 5224175567749775 / 18014398509481984 := by
    rw [roundQ_eq_of_near (-2) 5224175567749775] <;> norm_num
  have h2 : roundQ (5224175567749775 / 18014398509481984 * 100) = justBelow29 := by
    rw [roundQ_eq_of_near 4 8162774324609023] <;> norm_num [justBelow29]
  rw [seekValue, h1, h2]

theorem seekValue_199_200 : seekValue 199 200 = 199 / 2 := by
  have h1 : roundQ (199 / 200) = 8962163258467287 / 9007199254740992 := by
    rw [roundQ_eq_of_near (-1) 8962163258467287] <;> norm_num
  have h2 : roundQ (8962163258467287 / 9007199254740992 * 100) = 199 / 2 := by
    rw [roundQ_eq_of_near 6 7001690045677568] <;> norm_num
  rw [seekValue, h1, h2]

/-- C5, as stated, fails: on a bar of width 100 a click at offset 29 (both
binary64 values, inside the bar, non-empty url, not loading) stores
`28.999999999999996`, which is not `100 * 29 / 100 = 29`. -/
theorem seek_29_of_100_is_rounded :
    pausedMidway.url ≠ "" ∧ pausedMidway.isLoading = false ∧
    (0 : ℚ) < 100 ∧ (0 : ℚ) ≤ 29 ∧ (29 : ℚ) ≤ 100 ∧
    isBinary64 29 ∧ isBinary64 100 ∧
    (handleProgressClick pausedMidway (JSNumber.finite 29) (JSNumber.finite 100)).progress =
      JSNumber.finite (8162774324609023 / 281474976710656) ∧
    (handleProgressClick pausedMidway (JSNumber.finite 29) (JSNumber.finite 100)).progress ≠
      JSNumber.finite (100 * 29 / 100) := by
  have hs := handleProgressClick_inside pausedMidway 29 100 (by decide) rfl
    (by norm_num) (by norm_num) (by norm_num)
  have hv : seekValue 29 100 < 100 := by rw [seekValue_29_100]; norm_num [justBelow29]
  have hp : pausedMidway.isPlaying = false := rfl
  rw [if_pos ⟨hv, hp⟩, seekValue_29_100] at hs
  have h29 : isBinary64 29 := by simpa using isBinary64_natCast 29 (by norm_num)
  have h100 : isBinary64 100 := by simpa using isBinary64_natCast 100 (by norm_num)
  refine ⟨by decide, rfl, by norm_num, by norm_num, by norm_num, h29, h100, ?_, ?_⟩
  · rw [hs]
    rfl
  · rw [hs]
    show JSNumber.finite justBelow29 ≠ JSNumber.finite (100 * 29 / 100)
    intro h
    have := JSNumber.finite.inj h
    norm_num [justBelow29] at this

/-- C5, amended. With a non-empty `url`, `isLoading = false`, a bar of width
`W > 0` and a pointer offset `0 ≤ x ≤ W`, `handleProgressClick` sets
`progress` to the binary64 value of `(x / W) * 100`: a finite number between
0 and 100 that differs from `100 * x / W` by less than `2 ^ (-45)`, is
exactly 100 at `x = W`, exactly 50 at `x = W / 2`, and is below 100 whenever
`x ≤ W * (1 - 2 ^ (-53))`.  When the stored value is below 100, a paused
player starts playing with the playing status and a playing one keeps
`isPlaying` and its status; when it is exactly 100 the player stops with the
completion status. -/
theorem handleProgressClick_seek (s : State) (x W : ℚ)
    (hu : s.url ≠ "") (hl : s.isLoading = false)
    (hW : 0 < W) (hx0 : 0 ≤ x) (hxW : x ≤ W) :
    (handleProgressClick s (JSNumber.finite x) (JSNumber.finite W)).progress =
      JSNumber.finite (seekValue x W) ∧
    JSNumber.mul (JSNumber.div (JSNumber.finite x) (JSNumber.finite W)) 100 =
      JSNumber.finite (seekValue x W) ∧
    0 ≤ seekValue x W ∧ seekValue x W ≤ 100 ∧
    |seekValue x W - 100 * x / W| < 1 / 2 ^ 45 ∧
    (seekValue x W < 100 → s.isPlaying = false →
      (handleProgressClick s (JSNumber.finite x) (JSNumber.finite W)).isPlaying = true ∧
      (handleProgressClick s (JSNumber.finite x) (JSNumber.finite W)).status =
        "▶️ Reproduzindo...") ∧
    (seekValue x W < 100 → s.isPlaying = true →
      (handleProgressClick s (JSNumber.finite x) (JSNumber.finite W)).isPlaying = true ∧
      (handleProgressClick s (JSNumber.finite x) (JSNumber.finite W)).status = s.status) ∧
    (seekValue x W = 100 →
      (handleProgressClick s (JSNumber.finite x) (JSNumber.finite W)).isPlaying = false ∧
      (handleProgressClick s (JSNumber.finite x) (JSNumber.finite W)).status =
        "✅ Reprodução finalizada!") ∧
    (x = W → seekValue x W = 100) ∧
    (x ≤ W * (1 - 1 / 2 ^ 53) → seekValue x W < 100) ∧
    (x = W / 2 →
      (handleProgressClick s (JSNumber.finite x) (JSNumber.finite W)).progress = 50) ∧
    (x = W →
      (handleProgressClick s (JSNumber.finite x) (JSNumber.finite W)).progress = 100 ∧
      (handleProgressClick s (JSNumber.finite x) (JSNumber.finite W)).isPlaying = false) := by
  have hs := handleProgressClick_inside s x W hu hl hW hx0 hxW
  obtain ⟨_, _, c, d⟩ := seekValue_bounds x W hW hx0 hxW
  have hprog : (handleProgressClick s (JSNumber.finite x) (JSNumber.finite W)).progress =
      JSNumber.finite (seekValue x W) := by
    rw [hs]
    split_ifs <;> rfl
  have hstop : seekValue x W = 100 →
      (handleProgressClick s (JSNumber.finite x) (JSNumber.finite W)).isPlaying = false ∧
      (handleProgressClick s (JSNumber.finite x) (JSNumber.finite W)).status =
        "✅ Reprodução finalizada!" := by
    intro h
    have hn : ¬ (seekValue x W < 100 ∧ s.isPlaying = false) := by
      rintro ⟨h', _⟩
      linarith
    rw [hs, if_neg hn, if_pos h]
    exact ⟨rfl, rfl⟩
  refine ⟨hprog, newProgress_inside x W hW hx0 hxW, c, d, seekValue_error x W hW hx0 hxW,
    ?_, ?_, hstop, ?_, seekValue_lt_hundred x W hW, ?_, ?_⟩
  · intro h hp
    rw [hs, if_pos ⟨h, hp⟩]
    exact ⟨rfl, rfl⟩
  · intro h hp
    have hn : ¬ (seekValue x W < 100 ∧ s.isPlaying = false) := by
      rintro ⟨_, h'⟩
      rw [hp] at h'
      exact absurd h' (by decide)
    rw [hs, if_neg hn, if_neg (ne_of_lt h)]
    exact ⟨hp, rfl⟩
  · intro h
    rw [h]
    exact seekValue_full W hW
  · intro h
    rw [hprog, h, seekValue_half W hW]
    show JSNumber.finite 50 = JSNumber.finite ((50 : ℕ) : ℚ)
    norm_num
  · intro h
    have hv : seekValue x W = 100 := by rw [h]; exact seekValue_full W hW
    refine ⟨?_, (hstop hv).1⟩
    rw [hprog, hv, hundred_eq]

theorem handleProgressClick_seek_witness :
    pausedMidway.url ≠ "" ∧ pausedMidway.isLoading = false ∧
    (0 : ℚ) < 300 ∧ (0 : ℚ) ≤ 150 ∧ (150 : ℚ) ≤ 300 ∧
    (handleProgressClick pausedMidway (JSNumber.finite 150) (JSNumber.finite 300)).progress =
      50 ∧
    (handleProgressClick pausedMidway (JSNumber.finite 150) (JSNumber.finite 300)).isPlaying =
      true ∧
    (handleProgressClick playingPastEnd (JSNumber.finite 300) (JSNumber.finite 300)).progress =
      100 ∧
    (handleProgressClick playingPastEnd (JSNumber.finite 300)
      (JSNumber.finite 300)).isPlaying = false :=
  have h := handleProgressClick_seek pausedMidway 150 300 (by decide) rfl
    (by norm_num) (by norm_num) (by norm_num)
  have g := handleProgressClick_seek playingPastEnd 300 300 (by decide) rfl
    (by norm_num) (by norm_num) (by norm_num)
  have hv : seekValue 150 300 < 100 :=
    h.2.2.2.2.2.2.2.2.2.1 (by norm_num)
  ⟨by decide, rfl, by norm_num, by norm_num, by norm_num,
    h.2.2.2.2.2.2.2.2.2.2.1 (by norm_num), (h.2.2.2.2.2.1 hv rfl).1,
    (g.2.2.2.2.2.2.2.2.2.2.2 rfl).1, (g.2.2.2.2.2.2.2.2.2.2.2 rfl).2⟩

/-! ## The timer's update -/

theorem run_load_resolve :
    run initialState [Event.setUrl "https://a", Event.load, Event.resolve] = loadedA := by
  have h : startsWith "https://a" "https://" = true := by decide
  simp [run, step, initialState, handleLoadAndPlay, h, loadResolved, loadedA]

/-- One firing evaluated: the rounded sum is given by `hr`. -/
theorem timerFire_eval (s : State) (q r : ℚ) (hp : s.isPlaying = true)
    (hq : s.progress = JSNumber.finite q) (h : q < 100) (hr : roundQ (q + 1) = r)
    (h1 : -2 ^ 1024 < r) (h2 : r < 2 ^ 1024) :
    timerFire s = { s with progress := JSNumber.finite r } := by
  rw [timerFire_playing s q hp hq h, binary64_of_roundQ hr h1 h2]

theorem isBinary64_justBelow32 : isBinary64 justBelow32 := by
  apply binary64_of_roundQ _ (by norm_num [justBelow32]) (by norm_num [justBelow32])
  rw [roundQ_eq_of_near 4 9007199254740991] <;> norm_num [justBelow32]

theorem roundQ_justBelow32_succ : roundQ (justBelow32 + 1) = 33 := by
  rw [roundQ_eq_of_tie_up 5 (33 * 2 ^ 47)] <;> norm_num [justBelow32]

theorem run_justBelow32Events :
    run initialState justBelow32Events = playingJustBelow32 := by
  have hseek : handleProgressClick loadedA (JSNumber.finite 29) (JSNumber.finite 100) =
      { loadedA with progress := JSNumber.finite justBelow29 } := by
    have hs := handleProgressClick_inside loadedA 29 100 (by decide) rfl
      (by norm_num) (by norm_num) (by norm_num)
    have hn : ¬ (seekValue 29 100 < 100 ∧ loadedA.isPlaying = false) := by
      rintro ⟨_, h⟩
      exact absurd h (by decide)
    have hne : ¬ (seekValue 29 100 = 100) := by
      rw [seekValue_29_100]
      norm_num [justBelow29]
    rw [hs, if_neg hn, if_neg hne, seekValue_29_100]
  have t1 : timerFire { loadedA with progress := JSNumber.finite justBelow29 } =
      { loadedA with progress := JSNumber.finite justBelow30 } := by
    apply timerFire_eval _ justBelow29 justBelow30 rfl rfl (by norm_num [justBelow29]) _
      (by norm_num [justBelow30]) (by norm_num [justBelow30])
    rw [roundQ_eq_of_near 4 8444249301319679] <;> norm_num [justBelow29, justBelow30]
  have t2 : timerFire { loadedA with progress := JSNumber.finite justBelow30 } =
      { loadedA with progress := JSNumber.finite justBelow31 } := by
    apply timerFire_eval _ justBelow30 justBelow31 rfl rfl (by norm_num [justBelow30]) _
      (by norm_num [justBelow31]) (by norm_num [justBelow31])
    rw [roundQ_eq_of_near 4 8725724278030335] <;> norm_num [justBelow30, justBelow31]
  have t3 : timerFire { loadedA with progress := JSNumber.finite justBelow31 } =
      playingJustBelow32 := by
    have h := timerFire_eval { loadedA with progress := JSNumber.finite justBelow31 }
      justBelow31 justBelow32 rfl rfl (by norm_num [justBelow31])
      (by rw [roundQ_eq_of_near 4 9007199254740991] <;> norm_num [justBelow31, justBelow32])
      (by norm_num [justBelow32]) (by norm_num [justBelow32])
    rw [h]
    rfl
  rw [justBelow32Events, run_append, run_load_resolve, run_cons, run_cons, run_cons, run_cons,
    run_nil]
  show timerFire (timerFire (timerFire
    (handleProgressClick loadedA (JSNumber.finite 29) (JSNumber.finite 100)))) = _
  rw [hseek, t1, t2, t3]

theorem justBelow32Events_wellFormed : ∀ e ∈ justBelow32Events, e.wellFormed := by
  intro e he
  simp only [justBelow32Events, List.mem_append, List.mem_cons, List.mem_singleton,
    List.mem_nil_iff, or_false] at he
  rcases he with (h | h | h) | h | h | h | h <;> subst h <;> simp [Event.wellFormed]

/-- C7, as stated, fails: in the reachable state with `progress =
31.999999999999996` (a click at 29 of 100 pixels and three firings), which
is below 100, the update stores 33, not `progress + 1`. -/
theorem tick_below_32_is_rounded :
    Reachable playingJustBelow32 ∧
    playingJustBelow32.progress = JSNumber.finite (9007199254740991 / 281474976710656) ∧
    isBinary64 (9007199254740991 / 281474976710656) ∧
    (9007199254740991 / 281474976710656 : ℚ) < 100 ∧
    (tickUpdate playingJustBelow32).progress = 33 ∧
    (tickUpdate playingJustBelow32).progress ≠
      JSNumber.finite (9007199254740991 / 281474976710656 + 1) := by
  have ht : (tickUpdate playingJustBelow32).progress = JSNumber.finite 33 := by
    have hge : ¬ (JSNumber.ge playingJustBelow32.progress 100 = true) := by
      show ¬ (JSNumber.ge (JSNumber.finite justBelow32) 100 = true)
      rw [ge_finite_hundred]
      norm_num [justBelow32]
    rw [tickUpdate, if_neg hge]
    show JSNumber.add (JSNumber.finite justBelow32) 1 = _
    rw [add_finite_one]
    exact binary64_of_roundQ roundQ_justBelow32_succ (by norm_num) (by norm_num)
  refine ⟨⟨justBelow32Events, justBelow32Events_wellFormed, run_justBelow32Events⟩, rfl,
    isBinary64_justBelow32, by norm_num, ?_, ?_⟩
  · rw [ht]
    show JSNumber.finite 33 = JSNumber.finite ((33 : ℕ) : ℚ)
    norm_num
  · rw [ht]
    intro h
    have := JSNumber.finite.inj h
    norm_num at this

theorem ge_false_of_lt (a : JSNumber) (h : JSNumber.lt a 100 = true) :
    JSNumber.ge a 100 = false := by
  cases a with
  | finite p =>
    rw [lt_finite_hundred] at h
    rw [ge_finite_hundred]
    simp only [decide_eq_true_eq] at h
    simp [h]
  | posInf => rw [hundred_eq] at h; simp [JSNumber.lt] at h
  | negInf => rw [hundred_eq]; rfl
  | nan => rw [hundred_eq] at h; simp [JSNumber.lt] at h

theorem tickUpdate_below (s : State) (h : JSNumber.lt s.progress 100 = true) :
    tickUpdate s = { s with progress := JSNumber.add s.progress 1 } := by
  have hge : ¬ (JSNumber.ge s.progress 100 = true) := by
    rw [ge_false_of_lt _ h]
    decide
  rw [tickUpdate, if_neg hge]

theorem tickUpdate_finite (s : State) (p : ℚ) (hp : s.progress = JSNumber.finite p)
    (hv : isBinary64 p) (h : p < 100) :
    (tickUpdate s).progress = JSNumber.finite (roundQ (p + 1)) ∧ p ≤ roundQ (p + 1) := by
  have hmono : p ≤ roundQ (p + 1) := by
    have := roundQ_mono (show p ≤ p + 1 by linarith)
    rwa [isBinary64_roundQ hv] at this
  have hup : roundQ (p + 1) ≤ 101 := by
    have := roundQ_le_natCast (q := p + 1) 101 (by norm_num) (by push_cast; linarith)
    simpa using this
  have hlt : JSNumber.lt s.progress 100 = true := by
    rw [hp, lt_finite_hundred]
    simpa using h
  refine ⟨?_, hmono⟩
  rw [tickUpdate_below s hlt, hp]
  show JSNumber.add (JSNumber.finite p) 1 = _
  rw [add_finite_one]
  have hb := isBinary64_bounds hv
  exact binary64_of_bounds (by linarith [hb.1]) (by
    have : (101 : ℚ) < 2 ^ 1024 := by norm_num
    linarith)

/-- C7, amended. On a state with `progress < 100` the interval's update
sets `progress` to the binary64 sum `progress + 1` and keeps `isPlaying`;
for a binary64 `progress` the new value is never below the old one.  For a
finite binary64 progress `p < 100` the new value is `p + 1` rounded to
binary64: it is `p + 1` itself whenever `p + 1` is a binary64 value, in
particular for every integer `0 ≤ p < 100`, and for `0 ≤ p` it is above `p`
and within `2 ^ (-47)` of `p + 1`.  On a state with `progress ≥ 100` the
update sets `progress` to 100, `isPlaying` to false and the status to the
completion text, and applying it again changes nothing.  It never turns
`isPlaying` on. -/
theorem tickUpdate_advances_or_finishes (s : State) :
    (JSNumber.lt s.progress 100 = true →
      (tickUpdate s).progress = JSNumber.add s.progress 1 ∧
      (tickUpdate s).isPlaying = s.isPlaying ∧
      (s.progress.isValue → s.progress ≤ (tickUpdate s).progress)) ∧
    (∀ p : ℚ, s.progress = JSNumber.finite p → isBinary64 p → p < 100 →
      (tickUpdate s).progress = JSNumber.finite (roundQ (p + 1)) ∧
      p ≤ roundQ (p + 1) ∧
      (isBinary64 (p + 1) → (tickUpdate s).progress = JSNumber.finite (p + 1)) ∧
      (0 ≤ p → p < roundQ (p + 1) ∧ |roundQ (p + 1) - (p + 1)| ≤ 1 / 2 ^ 47)) ∧
    (∀ n : ℕ, n < 100 → s.progress = JSNumber.finite n →
      (tickUpdate s).progress = JSNumber.finite (n + 1)) ∧
    (JSNumber.ge s.progress 100 = true →
      (tickUpdate s).progress = 100 ∧
      (tickUpdate s).isPlaying = false ∧
      (tickUpdate s).status = "✅ Reprodução finalizada!" ∧
      tickUpdate (tickUpdate s) = tickUpdate s) ∧
    ((tickUpdate s).isPlaying = true → s.isPlaying = true) := by
  refine ⟨?_, ?_, ?_, ?_, ?_⟩
  · intro h
    rw [tickUpdate_below s h]
    refine ⟨rfl, rfl, ?_⟩
    intro hv
    show JSNumber.ge (JSNumber.add s.progress 1) s.progress = true
    cases hp : s.progress with
    | finite p =>
      rw [hp] at hv h
      have hlt : p < 100 := by
        rw [lt_finite_hundred] at h
        simpa using h
      have ht := tickUpdate_finite s p hp hv hlt
      have hadd : JSNumber.add (JSNumber.finite p) 1 = JSNumber.finite (roundQ (p + 1)) := by
        have := ht.1
        rw [tickUpdate_below s (by rw [hp]; exact h), hp] at this
        exact this
      rw [hadd]
      show decide (p ≤ roundQ (p + 1)) = true
      simpa using ht.2
    | posInf => rw [hp, hundred_eq] at h; simp [JSNumber.lt] at h
    | negInf => rw [one_eq]; rfl
    | nan => rw [hp, hundred_eq] at h; simp [JSNumber.lt] at h
  · intro p hp hv hlt
    have ht := tickUpdate_finite s p hp hv hlt
    refine ⟨ht.1, ht.2, ?_, ?_⟩
    · intro hv1
      rw [ht.1, isBinary64_roundQ hv1]
    · intro h0
      have e := roundQ_error_of_lt (q := p + 1) 6 (by norm_num) (by linarith)
        (by norm_num; linarith)
      have t2 : (2 : ℚ) ^ ((6 : ℤ) - 53) = 1 / 2 ^ 47 := by
        rw [show ((6 : ℤ) - 53) = -((47 : ℕ) : ℤ) by norm_num, zpow_neg, zpow_natCast]
        norm_num
      rw [t2] at e
      refine ⟨?_, e⟩
      rw [abs_le] at e
      have : (1 : ℚ) / 2 ^ 47 < 1 := by norm_num
      linarith [e.1]
  · intro n hn hp
    have hlt : JSNumber.lt s.progress 100 = true := by
      rw [hp, lt_finite_hundred]
      have : (n : ℚ) < 100 := by exact_mod_cast hn
      simpa using this
    rw [tickUpdate_below s hlt, hp]
    show JSNumber.add (JSNumber.finite n) 1 = _
    rw [add_finite_one]
    have := binary64_natCast (n + 1) (by omega)
    push_cast at this
    exact this
  · intro h
    have hs : tickUpdate s =
        { s with progress := 100, isPlaying := false, status := statusFinished } := by
      rw [tickUpdate, if_pos h]
    have h100 : JSNumber.ge (100 : JSNumber) 100 = true := by
      rw [hundred_eq]
      simp [JSNumber.ge]
    refine ⟨by rw [hs], by rw [hs], by rw [hs]; rfl, ?_⟩
    rw [hs]
    rw [tickUpdate, if_pos h100]
  · by_cases h : JSNumber.ge s.progress 100 = true
    · rw [tickUpdate, if_pos h]
      intro hc
      exact absurd hc (by simp)
    · rw [tickUpdate, if_neg h]
      exact id

theorem tickUpdate_advances_or_finishes_witness :
    JSNumber.lt pausedMidway.progress 100 = true ∧
    (tickUpdate pausedMidway).progress = JSNumber.add pausedMidway.progress 1 ∧
    pausedMidway.progress.isValue ∧
    pausedMidway.progress ≤ (tickUpdate pausedMidway).progress ∧
    pausedMidway.progress = JSNumber.finite ((12 : ℕ) : ℚ) ∧ isBinary64 ((12 : ℕ) : ℚ) ∧
    (((12 : ℕ) : ℚ)) < 100 ∧ (0 : ℚ) ≤ ((12 : ℕ) : ℚ) ∧ isBinary64 (((12 : ℕ) : ℚ) + 1) ∧
    (tickUpdate pausedMidway).progress = JSNumber.finite (((12 : ℕ) : ℚ) + 1) ∧
    ((12 : ℕ) : ℚ) < roundQ (((12 : ℕ) : ℚ) + 1) ∧
    JSNumber.ge playingPastEnd.progress 100 = true ∧
    (tickUpdate playingPastEnd).progress = 100 ∧
    (tickUpdate playingPastEnd).isPlaying = false ∧
    tickUpdate (tickUpdate playingPastEnd) = tickUpdate playingPastEnd :=
  have hp : pausedMidway.progress = JSNumber.finite ((12 : ℕ) : ℚ) := rfl
  have h12 : isBinary64 ((12 : ℕ) : ℚ) := isBinary64_natCast 12 (by norm_num)
  have h13 : isBinary64 (((12 : ℕ) : ℚ) + 1) := by
    have := isBinary64_natCast 13 (by norm_num)
    norm_num at this ⊢
    exact this
  have hlt : JSNumber.lt pausedMidway.progress 100 = true := by
    rw [hp, lt_finite_hundred]
    norm_num
  have hge : JSNumber.ge playingPastEnd.progress 100 = true := by
    show JSNumber.ge (JSNumber.finite (201 / 2)) 100 = true
    rw [ge_finite_hundred]
    norm_num
  have a := (tickUpdate_advances_or_finishes pausedMidway).1 hlt
  have b := (tickUpdate_advances_or_finishes pausedMidway).2.1 _ hp h12 (by norm_num)
  have c := (tickUpdate_advances_or_finishes pausedMidway).2.2.1 12 (by norm_num) hp
  have d := (tickUpdate_advances_or_finishes playingPastEnd).2.2.2.1 hge
  ⟨hlt, a.1, h12, a.2.2 h12, hp, h12, by norm_num, by norm_num, h13, b.2.2.1 h13,
    (b.2.2.2 (by norm_num)).1, hge, d.1, d.2.1, d.2.2.2⟩

/-! ## Runs that leave the intended states -/

theorem seek_near_end :
    handleProgressClick loadedA (JSNumber.finite 199) (JSNumber.finite 200) =
      { loadedA with progress := JSNumber.finite (199 / 2) } := by
  have hs := handleProgressClick_inside loadedA 199 200 (by decide) rfl
    (by norm_num) (by norm_num) (by norm_num)
  have hn : ¬ (seekValue 199 200 < 100 ∧ loadedA.isPlaying = false) := by
    rintro ⟨_, h⟩
    exact absurd h (by decide)
  have hne : ¬ (seekValue 199 200 = 100) := by
    rw [seekValue_199_200]
    norm_num
  rw [hs, if_neg hn, if_neg hne, seekValue_199_200]

theorem tick_near_end :
    timerFire { loadedA with progress := JSNumber.finite (199 / 2) } = playingPastEnd := by
  have h := timerFire_eval { loadedA with progress := JSNumber.finite (199 / 2) }
    (199 / 2) (201 / 2) rfl rfl (by norm_num)
    (by rw [roundQ_eq_of_near 6 7072058789855232] <;> norm_num)
    (by norm_num) (by norm_num)
  rw [h]
  rfl

theorem run_overshootEvents : run initialState overshootEvents = playingPastEnd := by
  have h : overshootEvents =
      [Event.setUrl "https://a", Event.load, Event.resolve] ++
        [Event.seek 199 200, Event.tick] := rfl
  rw [h, run_append, run_load_resolve, run_cons, run_cons, run_nil]
  show timerFire (handleProgressClick loadedA (JSNumber.finite 199) (JSNumber.finite 200)) =
    playingPastEnd
  rw [seek_near_end, tick_near_end]

theorem overshootEvents_wellFormed : ∀ e ∈ overshootEvents, e.wellFormed := by
  intro e he
  simp only [overshootEvents, List.mem_cons, List.mem_singleton, List.mem_nil_iff,
    or_false] at he
  rcases he with h | h | h | h | h <;> subst h <;> simp [Event.wellFormed]

/-- C4. Evaluation of a reachable run that leaves the range: after typing
`https://a`, loading, the load resolving, a click at 199 of 200 pixels
(`progress = 99.5`, still playing) and one firing of the timer, `progress`
is `100.5`, above 100, with `isPlaying` still true.  The click coordinates
are binary64 values and every intermediate result is exact. -/
theorem seek_then_tick_leaves_range :
    (∀ e ∈ overshootEvents, e.wellFormed) ∧
    Reachable (run initialState overshootEvents) ∧
    (run initialState [Event.setUrl "https://a", Event.load, Event.resolve,
      Event.seek 199 200]).progress = JSNumber.finite (199 / 2) ∧
    (run initialState overshootEvents).progress = JSNumber.finite (201 / 2) ∧
    ¬ ((run initialState overshootEvents).progress ≤ 100) ∧
    (run initialState overshootEvents).isPlaying = true ∧
    isBinary64 199 ∧ isBinary64 200 := by
  have h199 : isBinary64 199 := by simpa using isBinary64_natCast 199 (by norm_num)
  have h200 : isBinary64 200 := by simpa using isBinary64_natCast 200 (by norm_num)
  refine ⟨overshootEvents_wellFormed, ⟨overshootEvents, overshootEvents_wellFormed, rfl⟩,
    ?_, ?_, ?_, ?_, h199, h200⟩
  · have h : [Event.setUrl "https://a", Event.load, Event.resolve, Event.seek 199 200] =
        [Event.setUrl "https://a", Event.load, Event.resolve] ++ [Event.seek 199 200] := rfl
    rw [h, run_append, run_load_resolve, run_cons, run_nil]
    show (handleProgressClick loadedA (JSNumber.finite 199) (JSNumber.finite 200)).progress =
      JSNumber.finite (199 / 2)
    rw [seek_near_end]
  · rw [run_overshootEvents]
    rfl
  · rw [run_overshootEvents]
    show ¬ (JSNumber.ge 100 (JSNumber.finite (201 / 2)) = true)
    rw [hundred_eq]
    show ¬ (decide ((201 / 2 : ℚ) ≤ 100) = true)
    norm_num
  · rw [run_overshootEvents]
    rfl

theorem scenarioEvents_wellFormed : ∀ e ∈ scenarioEvents, e.wellFormed := by
  intro e he
  simp only [scenarioEvents, List.mem_append, List.mem_cons, List.mem_singleton,
    List.mem_nil_iff, or_false, List.mem_replicate] at he
  rcases he with (h | h | h) | ⟨_, h⟩ <;> subst h <;> simp [Event.wellFormed]

theorem run_scenarioEvents :
    run initialState scenarioEvents =
      { url := "https://example.com/watch?v=1", status := statusPlaying, isPlaying := true,
        isLoading := false, progress := 100 } := by
  have h0 : run initialState
      [Event.setUrl "https://example.com/watch?v=1", Event.load, Event.resolve] =
      scenarioLoaded := by
    have h : startsWith "https://example.com/watch?v=1" "https://" = true := by decide
    rw [scenarioLoaded_eq]
    simp [run, step, initialState, handleLoadAndPlay, h, loadResolved]
  rw [scenarioEvents, run_append, h0, run_replicate_tick, fireTimes_scenarioLoaded,
    scenarioLoaded_eq]

/-- C8. Evaluation of a reachable run that ends at 100 while playing: after
typing the URL, loading, the load resolving and 100 firings of the timer the
state is not loading, has `progress = 100` and `isPlaying = true`; it is
none of Idle, Running and Finished. -/
theorem reachable_at_end_still_playing :
    (∀ e ∈ scenarioEvents, e.wellFormed) ∧
    Reachable (run initialState scenarioEvents) ∧
    (run initialState scenarioEvents).isLoading = false ∧
    (run initialState scenarioEvents).progress = 100 ∧
    (run initialState scenarioEvents).isPlaying = true ∧
    ¬ (((run initialState scenarioEvents).isPlaying = false ∧
          (run initialState scenarioEvents).progress < 100) ∨
       ((run initialState scenarioEvents).isPlaying = true ∧
          (run initialState scenarioEvents).progress < 100) ∨
       ((run initialState scenarioEvents).progress = 100 ∧
          (run initialState scenarioEvents).isPlaying = false)) := by
  refine ⟨scenarioEvents_wellFormed, ⟨scenarioEvents, scenarioEvents_wellFormed, rfl⟩, ?_⟩
  rw [run_scenarioEvents]
  refine ⟨rfl, rfl, rfl, ?_⟩
  have hlt : ¬ ((100 : JSNumber) < 100) := by
    show ¬ (JSNumber.lt 100 100 = true)
    rw [hundred_eq]
    simp [JSNumber.lt]
  rintro (⟨h, _⟩ | ⟨_, h⟩ | ⟨_, h⟩)
  · exact absurd h (by decide)
  · exact hlt h
  · exact absurd h (by decide)

theorem midPlaybackEvents_wellFormed : ∀ e ∈ midPlaybackEvents, e.wellFormed := by
  intro e he
  simp only [midPlaybackEvents, List.mem_append, List.mem_cons, List.mem_singleton,
    List.mem_nil_iff, or_false, List.mem_replicate] at he
  rcases he with (h | h | h) | ⟨_, h⟩ | h <;> subst h <;> simp [Event.wellFormed]

theorem run_midPlaybackEvents : run initialState midPlaybackEvents = midPlaybackBadUrl := by
  rw [midPlaybackEvents, run_append, run_load_resolve, run_append, run_replicate_tick,
    fireTimes_playing 37 0 loadedA rfl rfl (by norm_num)]
  rfl

/-- C9, as stated, fails: in the reachable state where `https://a` is playing
at `progress = 37` and the input now reads `ftp://bad`, a click on the load
button leaves `isPlaying = true` and `progress = 37`, not the idle values. -/
theorem load_invalid_midway_not_idle :
    Reachable midPlaybackBadUrl ∧
    startsWith midPlaybackBadUrl.url "http://" = false ∧
    startsWith midPlaybackBadUrl.url "https://" = false ∧
    (step midPlaybackBadUrl Event.load).isPlaying = true ∧
    (step midPlaybackBadUrl Event.load).progress = 37 ∧
    ¬ ((step midPlaybackBadUrl Event.load).isLoading = false ∧
       (step midPlaybackBadUrl Event.load).isPlaying = false ∧
       (step midPlaybackBadUrl Event.load).progress = 0 ∧
       (step midPlaybackBadUrl Event.load).status =
         "❌ URL inválida! Use http:// ou https://") := by
  have h1 : startsWith midPlaybackBadUrl.url "http://" = false := by decide
  have h2 : startsWith midPlaybackBadUrl.url "https://" = false := by decide
  have hs : step midPlaybackBadUrl Event.load =
      { midPlaybackBadUrl with status := statusInvalidUrl } := by
    have hl : midPlaybackBadUrl.isLoading = false := rfl
    simp only [step, handleLoadAndPlay, h1, h2, hl]
    rfl
  refine ⟨⟨midPlaybackEvents, midPlaybackEvents_wellFormed, run_midPlaybackEvents⟩,
    h1, h2, ?_, ?_, ?_⟩
  · rw [hs]; rfl
  · rw [hs]; rfl
  · rw [hs]
    simp [midPlaybackBadUrl]

/-- C9, amended. When the load button is clicked (it is enabled only while
`isLoading = false`) on a URL that starts with neither `http://` nor
`https://`, the state afterwards has `isLoading = false` and the invalid-URL
status, and `isPlaying` and `progress` are what they were; so the idle values
`isPlaying = false`, `progress = 0` hold afterwards exactly when they held
before. -/
theorem load_invalid_keeps_playback (s : State)
    (h1 : startsWith s.url "http://" = false)
    (h2 : startsWith s.url "https://" = false)
    (hl : s.isLoading = false) :
    (step s Event.load).isLoading = false ∧
    (step s Event.load).status = "❌ URL inválida! Use http:// ou https://" ∧
    (step s Event.load).isPlaying = s.isPlaying ∧
    (step s Event.load).progress = s.progress ∧
    (((step s Event.load).isPlaying = false ∧ (step s Event.load).progress = 0) ↔
      (s.isPlaying = false ∧ s.progress = 0)) := by
  have hs : step s Event.load = { s with status := statusInvalidUrl } := by
    simp [step, handleLoadAndPlay, h1, h2, hl]
  rw [hs]
  exact ⟨hl, rfl, rfl, rfl, Iff.rfl⟩

theorem load_invalid_keeps_playback_witness :
    startsWith badUrlTyped.url "http://" = false ∧
    startsWith badUrlTyped.url "https://" = false ∧
    badUrlTyped.isLoading = false ∧
    (step badUrlTyped Event.load).isLoading = false ∧
    (step badUrlTyped Event.load).status = "❌ URL inválida! Use http:// ou https://" ∧
    (step badUrlTyped Event.load).isPlaying = false ∧
    (step badUrlTyped Event.load).progress = 0 :=
  have h := load_invalid_keeps_playback badUrlTyped (by decide) (by decide) rfl
  ⟨by decide, by decide, rfl, h.1, h.2.1, h.2.2.1, h.2.2.2.1⟩

/-! ## Invariants of reachable states -/

theorem loadingExcludesPlaying_step (s : State) (e : Event)
    (h : loadingExcludesPlaying s) : loadingExcludesPlaying (step s e) := by
  unfold loadingExcludesPlaying at *
  cases e with
  | setUrl value =>
    simp only [step]
    split_ifs <;> simpa using h
  | load =>
    simp only [step, handleLoadAndPlay]
    split_ifs <;> simp_all
  | resolve =>
    simp only [step, loadResolved]
    split_ifs <;> simp_all
  | toggle =>
    simp only [step, togglePlayPause]
    split_ifs <;> simp_all
  | seek x w =>
    simp only [step, handleProgressClick]
    split_ifs <;> simp_all
  | tick =>
    simp only [step, timerFire, tickUpdate]
    split_ifs <;> simp_all

theorem loadingExcludesPlaying_run (es : List Event) (s : State)
    (h : loadingExcludesPlaying s) : loadingExcludesPlaying (run s es) := by
  induction es generalizing s with
  | nil => exact h
  | cons e es ih => exact ih (step s e) (loadingExcludesPlaying_step s e h)

/-- C10. In every state reachable from the initial state by URL edits, loads
(start and resolution), toggles, seeks and timer firings, `isLoading` and
`isPlaying` are not both true; and in any state with `isLoading = true`,
`togglePlayPause` and `handleProgressClick` return the state unchanged, so
neither can set `isPlaying`. -/
theorem loading_and_playing_exclusive (s : State) :
    (Reachable s → ¬ (s.isLoading = true ∧ s.isPlaying = true)) ∧
    (s.isLoading = true →
      togglePlayPause s = s ∧ ∀ x w : JSNumber, handleProgressClick s x w = s) := by
  constructor
  · rintro ⟨es, _, rfl⟩ ⟨hl, hp⟩
    have h := loadingExcludesPlaying_run es initialState rfl
    unfold loadingExcludesPlaying at h
    simp [hl, hp] at h
  · intro hl
    exact ⟨togglePlayPause_loading s hl, handleProgressClick_loading s hl⟩

theorem scenarioLoading_reachable : Reachable scenarioLoading := by
  refine ⟨[Event.setUrl "https://example.com/watch?v=1", Event.load], ?_, ?_⟩
  · intro e he
    simp only [List.mem_cons, List.mem_singleton, List.mem_nil_iff, or_false] at he
    rcases he with h | h <;> subst h <;> simp [Event.wellFormed]
  · have h : startsWith "https://example.com/watch?v=1" "https://" = true := by decide
    simp [run, step, initialState, handleLoadAndPlay, h, scenarioLoading]

theorem loading_and_playing_exclusive_witness :
    Reachable scenarioLoading ∧ scenarioLoading.isLoading = true ∧
    ¬ (scenarioLoading.isLoading = true ∧ scenarioLoading.isPlaying = true) ∧
    togglePlayPause scenarioLoading = scenarioLoading ∧
    ∀ x w : JSNumber, handleProgressClick scenarioLoading x w = scenarioLoading :=
  have h := loading_and_playing_exclusive scenarioLoading
  ⟨scenarioLoading_reachable, rfl, h.1 scenarioLoading_reachable, (h.2 rfl).1, (h.2 rfl).2⟩

theorem clamp_bounded (x W : ℚ) (hW : 0 < W) :
    ∃ q : ℚ, JSNumber.mathMin 100 (JSNumber.mathMax 0
        (JSNumber.mul (JSNumber.div (JSNumber.finite x) (JSNumber.finite W)) 100)) =
      JSNumber.finite q ∧ 0 ≤ q ∧ q ≤ 101 := by
  have hne : W ≠ 0 := ne_of_gt hW
  have hnan : ∀ a : JSNumber, a ≠ JSNumber.nan →
      ∃ q : ℚ, JSNumber.mathMin 100 (JSNumber.mathMax 0 a) = JSNumber.finite q ∧
        0 ≤ q ∧ q ≤ 101 := by
    intro a ha
    rw [hundred_eq, zero_eq]
    cases a with
    | finite v =>
      refine ⟨min 100 (max 0 v), rfl, le_min (by norm_num) (le_max_left _ _), ?_⟩
      exact le_trans (min_le_left _ _) (by norm_num)
    | posInf => exact ⟨100, rfl, by norm_num, by norm_num⟩
    | negInf => exact ⟨0, rfl, by norm_num, by norm_num⟩
    | nan => exact absurd rfl ha
  apply hnan
  have hdiv : JSNumber.div (JSNumber.finite x) (JSNumber.finite W) = binary64 (x / W) := by
    simp only [JSNumber.div, hne, if_false]
  rw [hdiv, hundred_eq]
  unfold binary64
  split_ifs
  · simp [JSNumber.mul, JSNumber.infTimes]
  · simp [JSNumber.mul, JSNumber.infTimes]
  · show binary64 _ ≠ JSNumber.nan
    unfold binary64
    split_ifs <;> simp

theorem progressBounded_step (s : State) (e : Event) (he : e.wellFormed)
    (h : progressBounded s) : progressBounded (step s e) := by
  have hzero : ∀ t : State, t.progress = 0 → progressBounded t :=
    fun t ht => ⟨0, by rw [ht, zero_eq], le_refl _, by norm_num⟩
  cases e with
  | setUrl value =>
    simp only [step]
    split_ifs <;> exact h
  | load =>
    simp only [step, handleLoadAndPlay]
    split_ifs <;> first | exact h | exact hzero _ rfl
  | resolve =>
    simp only [step, loadResolved]
    split_ifs <;> exact h
  | toggle =>
    simp only [step, togglePlayPause]
    split_ifs <;> exact h
  | seek x w =>
    have hb := clamp_bounded x w he
    simp only [step, handleProgressClick]
    split_ifs <;> first | exact h | exact hb
  | tick =>
    obtain ⟨q, hq, h0, h1⟩ := h
    by_cases ha : timerActive s = true
    · have hlt : q < 100 := by
        simp only [timerActive, hq, lt_finite_hundred, Bool.and_eq_true,
          decide_eq_true_eq] at ha
        exact ha.2
      have hp : s.isPlaying = true := by
        simp only [timerActive, Bool.and_eq_true] at ha
        exact ha.1
      have lo : (1 : ℚ) ≤ roundQ (q + 1) := by
        have := natCast_le_roundQ (q := q + 1) 1 (by norm_num) (by push_cast; linarith)
        simpa using this
      have hi : roundQ (q + 1) ≤ 101 := by
        have := roundQ_le_natCast (q := q + 1) 101 (by norm_num) (by push_cast; linarith)
        simpa using this
      have hbig : (101 : ℚ) < 2 ^ 1024 := by norm_num
      have hf := timerFire_eval s q (roundQ (q + 1)) hp hq hlt rfl (by linarith) (by linarith)
      show progressBounded (timerFire s)
      rw [hf]
      exact ⟨roundQ (q + 1), rfl, by linarith, hi⟩
    · show progressBounded (timerFire s)
      rw [timerFire, if_neg ha]
      exact ⟨q, hq, h0, h1⟩

theorem reachable_progressBounded (s : State) (h : Reachable s) : progressBounded s := by
  obtain ⟨es, hes, rfl⟩ := h
  have key : ∀ (es : List Event) (s : State), (∀ e ∈ es, e.wellFormed) →
      progressBounded s → progressBounded (run s es) := by
    intro es
    induction es with
    | nil => intro s _ hs; exact hs
    | cons e es ih =>
      intro s hw hs
      exact ih (step s e) (fun e' he' => hw e' (List.mem_cons_of_mem _ he'))
        (progressBounded_step s e (hw e (List.mem_cons_self _ _)) hs)
  exact key es initialState hes ⟨0, zero_eq, le_refl _, by norm_num⟩

end Player1
